import Mathlib

/-!
Verification of the poster-tiler backend (src/main.py).

The numeric pipeline of the source runs on Python ints and floats; here it is
embedded in exact rational arithmetic (`ℚ`), with Python's `round` (banker's
rounding, round-half-to-even) reproduced exactly as `pyRound`.  At
half-integer rounding ties the exact-rational tile boundary can deviate from
the program's two-step binary64 evaluation (`tile_w = w / cols` is rounded
to a double before being multiplied); the tiling properties proved below do
not depend on those tie deviations, and the one behaviour that does — the
overlay/cut coordinate equality — is a bug of the program, exhibited with
exact double values in `c2_preview_cut_mismatch`.  The only irrational step
of the source, `math.sqrt` in the rasterizer scale, is embedded over `ℝ`
with `Real.sqrt`.  PIL images are embedded as a dimension pair together with
a total pixel map; the third-party primitives (`PIL.Image.crop`,
`ImageDraw.line`, pypdfium2 rendering, reportlab page emission) are
modelled at the interface level the source uses them at.
-/

/-- Python's built-in `round` on an exact rational: round half to even.
(`Rat.floor` is used rather than `⌊·⌋` so that the definition evaluates
inside the kernel; they agree, see `rat_floor_eq`.) -/
def pyRound (q : ℚ) : ℤ :=
  if q - (q.floor : ℚ) < 1/2 then q.floor
  else if 1/2 < q - (q.floor : ℚ) then q.floor + 1
  else if q.floor % 2 = 0 then q.floor else q.floor + 1

/-- A crop box `(left, upper, right, lower)` as passed to `Image.crop` in
`cut_into_tiles` (src/main.py lines 108-112). -/
structure Rect where
  left : ℤ
  upper : ℤ
  right : ℤ
  lower : ℤ
deriving DecidableEq, Repr

/-- Pixel width of a crop box. -/
def Rect.width (t : Rect) : ℤ := t.right - t.left

/-- Pixel height of a crop box. -/
def Rect.height (t : Rect) : ℤ := t.lower - t.upper

/-- Membership of an integer pixel coordinate in the half-open rectangle
`[left, right) × [upper, lower)`. -/
def inRect (t : Rect) (x y : ℤ) : Prop :=
  t.left ≤ x ∧ x < t.right ∧ t.upper ≤ y ∧ y < t.lower

instance (t : Rect) (x y : ℤ) : Decidable (inRect t x y) := by
  unfold inRect; infer_instance

/-- A PIL image: integer dimensions plus a total RGB pixel map. -/
structure RasterImage where
  width : ℕ
  height : ℕ
  pix : ℤ → ℤ → ℤ × ℤ × ℤ

/-- `img.copy()` (a fresh buffer with the same content; in the pure embedding
this is the identical value). -/
def RasterImage.copy (im : RasterImage) : RasterImage :=
  { width := im.width, height := im.height, pix := im.pix }

/-- `img.crop((left, upper, right, lower))`: the sub-image addressed by the
box, its pixel map shifted by the box origin. -/
def RasterImage.crop (im : RasterImage) (t : Rect) : RasterImage :=
  { width := (t.right - t.left).toNat
    height := (t.lower - t.upper).toNat
    pix := fun x y => im.pix (x + t.left) (y + t.upper) }

/-- Boundary `i` of the partition of `len` pixels into `parts` cells:
`round(i * (len / parts))`, as `cut_into_tiles` computes
`int(round(c * tile_w))` with `tile_w = w / cols` (src/main.py lines
103-111), evaluated in exact rational arithmetic; at half-integer ties this
can differ by one from the program's two-step double evaluation (see
`c2_preview_cut_mismatch` for the exhibited case). -/
def tileBound (len parts i : ℕ) : ℤ :=
  pyRound ((i : ℚ) * ((len : ℚ) / (parts : ℚ)))

/-- The crop box of grid cell `(r, c)` computed by the loop body of
`cut_into_tiles` (src/main.py lines 108-111). -/
def tileRect (w h rows cols r c : ℕ) : Rect :=
  { left := tileBound w cols c
    upper := tileBound h rows r
    right := tileBound w cols (c + 1)
    lower := tileBound h rows (r + 1) }

/-- One row `r` of crop boxes, `c = 0 .. cols-1` (the inner loop of
`cut_into_tiles`). -/
def tileRow (w h rows cols r : ℕ) : List Rect :=
  (List.range cols).map (fun c => tileRect w h rows cols r c)

/-- All crop boxes in row-major order (the nested loops of `cut_into_tiles`,
src/main.py lines 106-112). -/
def tile_rects (w h rows cols : ℕ) : List Rect :=
  (List.range rows).flatMap (tileRow w h rows cols)

/-- `cut_into_tiles(img, rows, cols)` (src/main.py lines 101-113): crop the
image at every grid cell box, row-major. -/
def cut_into_tiles (im : RasterImage) (rows cols : ℕ) : List RasterImage :=
  (tile_rects im.width im.height rows cols).map im.crop

/-- Grid line color used by `draw_grid_overlay` (the alpha channel of the
source's `(0, 255, 255, 255)` is dropped in the RGB pixel model). -/
def cyanOpaque : ℤ × ℤ × ℤ := (0, 255, 255)

/-- Line width of the overlay: `max(1, round(min(w, h) * 0.002))`
(src/main.py lines 93 and 97). -/
def gridLineWidth (w h : ℕ) : ℤ :=
  max 1 (pyRound ((min w h : ℚ) * (0.002 : ℚ)))

/-- Abscissa of the vertical overlay line for column boundary `c`:
`round(c * w / cols)` (src/main.py line 92). -/
def gridVLineX (w cols c : ℕ) : ℤ :=
  pyRound ((c : ℚ) * (w : ℚ) / (cols : ℚ))

/-- Ordinate of the horizontal overlay line for row boundary `r`:
`round(r * h / rows)` (src/main.py line 96). -/
def gridHLineY (h rows r : ℕ) : ℤ :=
  pyRound ((r : ℚ) * (h : ℚ) / (rows : ℚ))

/-- The abscissas painted by the `for c in range(1, cols)` loop. -/
def gridVLineXs (w cols : ℕ) : List ℤ :=
  (List.range' 1 (cols - 1)).map (gridVLineX w cols)

/-- The ordinates painted by the `for r in range(1, rows)` loop. -/
def gridHLineYs (h rows : ℕ) : List ℤ :=
  (List.range' 1 (rows - 1)).map (gridHLineY h rows)

/-- `draw.line([(x, 0), (x, h)], ...)`: PIL's line primitive modelled as
painting an opaque cyan band of the requested width around the segment. -/
def drawVLineOn (lw : ℤ) (im : RasterImage) (x : ℤ) : RasterImage :=
  { width := im.width, height := im.height
    pix := fun px py =>
      if x - lw / 2 ≤ px ∧ px < x - lw / 2 + lw ∧ 0 ≤ py ∧ py ≤ (im.height : ℤ)
      then cyanOpaque else im.pix px py }

/-- `draw.line([(0, y), (w, y)], ...)`: the horizontal counterpart. -/
def drawHLineOn (lw : ℤ) (im : RasterImage) (y : ℤ) : RasterImage :=
  { width := im.width, height := im.height
    pix := fun px py =>
      if y - lw / 2 ≤ py ∧ py < y - lw / 2 + lw ∧ 0 ≤ px ∧ px ≤ (im.width : ℤ)
      then cyanOpaque else im.pix px py }

/-- `draw_grid_overlay(img, rows, cols)` (src/main.py lines 84-98): copy the
source, then paint the `cols-1` vertical and `rows-1` horizontal cut lines. -/
def draw_grid_overlay (im : RasterImage) (rows cols : ℕ) : RasterImage :=
  let overlay := im.copy
  let lw := gridLineWidth im.width im.height
  let afterV := (gridVLineXs im.width cols).foldl (drawVLineOn lw) overlay
  (gridHLineYs im.height rows).foldl (drawHLineOn lw) afterV

/-- `MM_PER_INCH` (src/main.py line 24). -/
def MM_PER_INCH : ℚ := 25.4

/-- `PT_PER_INCH` (src/main.py line 25). -/
def PT_PER_INCH : ℚ := 72.0

/-- `PT_PER_MM = PT_PER_INCH / MM_PER_INCH` (src/main.py line 26). -/
def PT_PER_MM : ℚ := PT_PER_INCH / MM_PER_INCH

/-- `PAPER_PRESETS_MM` (src/main.py lines 28-33), as an association list. -/
def PAPER_PRESETS_MM : List (String × ℚ × ℚ) :=
  [("A4", 210.0, 297.0), ("A3", 297.0, 420.0),
   ("Letter", 215.9, 279.4), ("Legal", 215.9, 355.6)]

/-- Characters stripped by Python's default `str.strip()`. -/
def isPySpace (c : Char) : Bool :=
  c = ' ' || c = '\t' || c = '\n' || c = '\x0d' || c = '\x0b' || c = '\x0c'

/-- Python `s.strip()` with no argument: drop leading and trailing whitespace. -/
def pyStrip (s : String) : String :=
  ⟨((s.data.dropWhile isPySpace).reverse.dropWhile isPySpace).reverse⟩

/-- Python `s.lower()` (ASCII case folding suffices for the strings involved). -/
def pyLower (s : String) : String :=
  ⟨s.data.map Char.toLower⟩

/-- Python `s.startswith(p)`. -/
def strStartsWith (s p : String) : Bool :=
  List.isPrefixOf p.data s.data

/-- Python `s.split(sep)` for a one-character separator, on char lists. -/
def splitChar (sep : Char) : List Char → List (List Char)
  | [] => [[]]
  | c :: rest =>
    let r := splitChar sep rest
    if c = sep then [] :: r
    else
      match r with
      | [] => [[c]]
      | g :: gs => (c :: g) :: gs

/-- Python `s.split(":", 1)[1]`: everything after the first colon, `none`
when there is no colon (the `IndexError` case). -/
def splitColonRest (s : String) : Option String :=
  match splitChar ':' s.data with
  | [] => none
  | [_] => none
  | _ :: rest => some ⟨List.intercalate [':'] rest⟩

/-- Numeric value of a decimal digit string. -/
def natOfDigits (cs : List Char) : ℕ :=
  cs.foldl (fun a c => a * 10 + (c.toNat - 48)) 0

/-- All characters are decimal digits. -/
def allDigits (cs : List Char) : Bool :=
  cs.all Char.isDigit

/-- Optional leading sign of a Python float literal. -/
def signSplit : List Char → ℤ × List Char
  | '-' :: rest => (-1, rest)
  | '+' :: rest => (1, rest)
  | cs => (1, cs)

/-- Unsigned mantissa `digits [. digits]` of a Python float literal. -/
def mantissaVal? (cs : List Char) : Option ℚ :=
  match splitChar '.' cs with
  | [ip] =>
    if ip.isEmpty || !allDigits ip then none
    else some ((natOfDigits ip : ℚ))
  | [ip, fp] =>
    if (ip.isEmpty && fp.isEmpty) || !allDigits ip || !allDigits fp then none
    else some ((natOfDigits (ip ++ fp) : ℚ) / (10 : ℚ) ^ fp.length)
  | _ => none

/-- Python's `float(s)` constructor on its decimal-literal core: optional
surrounding whitespace, optional sign, digits with optional fraction and
optional exponent.  The special values `inf`/`nan` and digit-group
underscores accepted by CPython are not modelled; none of the verified
behaviour depends on them. -/
def pyFloat? (s : String) : Option ℚ :=
  let t := (pyLower (pyStrip s)).data
  let st := signSplit t
  match splitChar 'e' st.2 with
  | [m] => (mantissaVal? m).map (fun q => (st.1 : ℚ) * q)
  | [m, ex] =>
    let est := signSplit ex
    if est.2.isEmpty || !allDigits est.2 then none
    else (mantissaVal? m).map
      (fun q => (st.1 : ℚ) * q * (10 : ℚ) ^ (est.1 * (natOfDigits est.2 : ℤ)))
  | _ => none

/-- Error kinds surfaced by `parse_paper` as HTTP 400 responses
(src/main.py lines 54-55), named as in the error taxonomy. -/
inductive PaperError where
  | InvalidPaperFormat
  | UnsupportedPaperSize
deriving DecidableEq, Repr

/-- `parse_paper(paper)` (src/main.py lines 36-55): preset lookup, the
`custom:W_mm,H_mm` format, and the two failure kinds.  Returns the page
size in points. -/
def parse_paper (paper0 : String) : Except PaperError (ℚ × ℚ) :=
  let paper1 := if paper0 = "" then "A4" else paper0
  let paper := pyStrip paper1
  match List.lookup paper PAPER_PRESETS_MM with
  | some wh => .ok (wh.1 * PT_PER_MM, wh.2 * PT_PER_MM)
  | none =>
    if strStartsWith (pyLower paper) "custom:" then
      match splitColonRest paper with
      | none => .error .InvalidPaperFormat
      | some rest =>
        match splitChar ',' rest.data with
        | [w_str, h_str] =>
          match pyFloat? ⟨w_str⟩, pyFloat? ⟨h_str⟩ with
          | some w_mm, some h_mm => .ok (w_mm * PT_PER_MM, h_mm * PT_PER_MM)
          | _, _ => .error .InvalidPaperFormat
        | _ => .error .InvalidPaperFormat
    else .error .UnsupportedPaperSize

/-- The rasterizer's scale factor (src/main.py lines 71-73):
`sqrt(max(1.0, max_pixels) / (w_pt * h_pt))` clamped to `[0.25, 6.0]`. -/
noncomputable def renderScale (w_pt h_pt max_pixels : ℝ) : ℝ :=
  max 0.25 (min (Real.sqrt (max 1.0 max_pixels / (w_pt * h_pt))) 6.0)

/-- One output page of the export document: the fixed page size passed to
`canvas.Canvas(..., pagesize=(pw_pt, ph_pt))` and the geometry of the single
`drawImage` call on that page (src/main.py lines 170-186). -/
structure OutputPage where
  pageW : ℚ
  pageH : ℚ
  drawW : ℚ
  drawH : ℚ
  x : ℚ
  y : ℚ
deriving DecidableEq, Repr

/-- `margin_pt = max(0.0, float(margin_mm)) * PT_PER_MM` (src/main.py line 165). -/
def margin_pt (margin_mm : ℚ) : ℚ :=
  max 0 margin_mm * PT_PER_MM

/-- `printable_w = max(1.0, pw_pt - 2 * margin_pt)` (src/main.py line 166). -/
def printable_w (pw_pt m_pt : ℚ) : ℚ :=
  max 1 (pw_pt - 2 * m_pt)

/-- `printable_h = max(1.0, ph_pt - 2 * margin_pt)` (src/main.py line 167). -/
def printable_h (ph_pt m_pt : ℚ) : ℚ :=
  max 1 (ph_pt - 2 * m_pt)

/-- The body of the export loop for one tile (src/main.py lines 172-186):
aspect-preserving fit scale, draw size, and centered position.  The RGB
conversion on line 174-175 does not change the tile's size. -/
def composeTilePage (printableW printableH pw_pt ph_pt : ℚ)
    (tile : RasterImage) : OutputPage :=
  let tw : ℚ := tile.width
  let th : ℚ := tile.height
  let sx := printableW / tw
  let sy := printableH / th
  let s := min sx sy
  let draw_w := tw * s
  let draw_h := th * s
  { pageW := pw_pt, pageH := ph_pt, drawW := draw_w, drawH := draw_h,
    x := (pw_pt - draw_w) / 2, y := (ph_pt - draw_h) / 2 }

/-- The whole export loop: one page per tile, in order (src/main.py
lines 172-186); the canvas page size is the same for every page. -/
def composePages (tiles : List RasterImage) (pw_pt ph_pt m_pt : ℚ) :
    List OutputPage :=
  tiles.map
    (composeTilePage (printable_w pw_pt m_pt) (printable_h ph_pt m_pt) pw_pt ph_pt)

/-- A concrete 1000 × 700 raster, the scenario image of the spec. -/
def sampleImage : RasterImage :=
  { width := 1000, height := 700, pix := fun _ _ => (255, 255, 255) }

/-- A concrete 100 × 50 tile used to instantiate composer theorems. -/
def sampleTile : RasterImage :=
  { width := 100, height := 50, pix := fun _ _ => (0, 0, 0) }

/-- The IEEE-754 binary64 value taken by the program's `tile_w = w / cols`
(src/main.py line 103) at `w = 1005`, `cols = 14`, as an exact rational:
the nearest double to `1005/14`, namely `5051470564182309 / 2^46`
(correct rounding is certified inside `c2_preview_cut_mismatch` by the
half-ulp bound `|tile_w_f64 - 1005/14| ≤ 2^-47`). -/
def tile_w_f64 : ℚ := 5051470564182309 / 70368744177664

/-- The IEEE-754 binary64 value of the program's product `c * tile_w`
(src/main.py line 108) at `c = 7` with `tile_w = tile_w_f64`: the nearest
double to `7 * tile_w_f64`, namely `8840073487319041 / 2^44 = 502.5 + 2^-44`
(certified by the half-ulp bound `|c_tile_w_f64 - 7 * tile_w_f64| ≤ 2^-45`). -/
def c_tile_w_f64 : ℚ := 8840073487319041 / 17592186044416

theorem rat_floor_eq (q : ℚ) : q.floor = ⌊q⌋ :=
  (Rat.floor_def' q).trans Rat.floor_def.symm

theorem floor_le_pyRound (q : ℚ) : ⌊q⌋ ≤ pyRound q := by
  unfold pyRound; rw [rat_floor_eq]; split_ifs <;> omega

theorem pyRound_le_floor_add_one (q : ℚ) : pyRound q ≤ ⌊q⌋ + 1 := by
  unfold pyRound; rw [rat_floor_eq]; split_ifs <;> omega

theorem pyRound_intCast (n : ℤ) : pyRound (n : ℚ) = n := by
  unfold pyRound
  rw [rat_floor_eq, Int.floor_intCast]
  norm_num

theorem pyRound_natCast (n : ℕ) : pyRound (n : ℚ) = n := by
  have h : ((n : ℤ) : ℚ) = (n : ℚ) := by push_cast; rfl
  rw [← h, pyRound_intCast]

theorem le_pyRound (q : ℚ) : q - 1/2 ≤ (pyRound q : ℚ) := by
  have h1 := Int.floor_le q
  have h2 := Int.lt_floor_add_one q
  unfold pyRound
  rw [rat_floor_eq]
  split_ifs with p1 p2 p3 <;> push_cast <;> linarith

theorem pyRound_le (q : ℚ) : (pyRound q : ℚ) ≤ q + 1/2 := by
  have h1 := Int.floor_le q
  have h2 := Int.lt_floor_add_one q
  unfold pyRound
  rw [rat_floor_eq]
  split_ifs with p1 p2 p3 <;> push_cast <;> linarith

theorem pyRound_mono {a b : ℚ} (hab : a ≤ b) : pyRound a ≤ pyRound b := by
  have hf : ⌊a⌋ ≤ ⌊b⌋ := Int.floor_le_floor hab
  rcases eq_or_lt_of_le hf with heq | hlt
  · have hfr : a - (⌊a⌋ : ℚ) ≤ b - (⌊b⌋ : ℚ) := by
      rw [← heq]; linarith
    unfold pyRound
    rw [rat_floor_eq, rat_floor_eq, heq]
    split_ifs <;> first | omega | (exfalso; rw [heq] at *; linarith)
  · have l1 := pyRound_le_floor_add_one a
    have l2 := floor_le_pyRound b
    omega

theorem tileBound_zero (len parts : ℕ) : tileBound len parts 0 = 0 := by
  unfold tileBound
  norm_num
  exact pyRound_intCast 0

theorem tileBound_self (len parts : ℕ) (hp : parts ≠ 0) :
    tileBound len parts parts = len := by
  unfold tileBound
  have h0 : (parts : ℚ) ≠ 0 := Nat.cast_ne_zero.2 hp
  rw [mul_comm, div_mul_cancel₀ _ h0]
  exact pyRound_natCast len

theorem tileBound_mono (len parts : ℕ) {i j : ℕ} (h : i ≤ j) :
    tileBound len parts i ≤ tileBound len parts j := by
  apply pyRound_mono
  apply mul_le_mul_of_nonneg_right
  · exact_mod_cast h
  · positivity

theorem tileBound_gap (len parts i : ℕ) :
    (len : ℚ) / (parts : ℚ) - 1 ≤
      (tileBound len parts (i + 1) : ℚ) - (tileBound len parts i : ℚ) := by
  have h1 := pyRound_le ((i : ℚ) * ((len : ℚ) / (parts : ℚ)))
  have h2 := le_pyRound (((i : ℚ) + 1) * ((len : ℚ) / (parts : ℚ)))
  have h3 : ((i : ℚ) + 1) * ((len : ℚ) / (parts : ℚ))
      = (i : ℚ) * ((len : ℚ) / (parts : ℚ)) + (len : ℚ) / (parts : ℚ) := by ring
  unfold tileBound
  push_cast
  linarith

theorem tileBound_step (len parts i : ℕ) (hp : 1 ≤ parts) (hlp : parts ≤ len) :
    tileBound len parts i + 1 ≤ tileBound len parts (i + 1) := by
  have hp0 : (0 : ℚ) < (parts : ℚ) := by exact_mod_cast hp
  have ht : (1 : ℚ) ≤ (len : ℚ) / (parts : ℚ) := by
    rw [le_div_iff₀ hp0, one_mul]
    exact_mod_cast hlp
  rcases eq_or_lt_of_le ht with h1 | h1
  · have hb : ∀ j : ℕ, tileBound len parts j = j := by
      intro j
      unfold tileBound
      rw [← h1, mul_one]
      exact pyRound_natCast j
    rw [hb, hb]
    omega
  · have hgap := tileBound_gap len parts i
    have hpos : (0 : ℚ) <
        (tileBound len parts (i + 1) : ℚ) - (tileBound len parts i : ℚ) := by
      linarith
    have : tileBound len parts i < tileBound len parts (i + 1) := by
      exact_mod_cast sub_pos.1 hpos
    omega

theorem exists_cell (f : ℕ → ℤ) (mono : ∀ i j, i ≤ j → f i ≤ f j) (n : ℕ)
    (x : ℤ) (h0 : f 0 ≤ x) (hn : x < f n) :
    ∃ c, c < n ∧ f c ≤ x ∧ x < f (c + 1) := by
  induction n with
  | zero => omega
  | succ n ih =>
    by_cases hc : f n ≤ x
    · exact ⟨n, Nat.lt_succ_self n, hc, hn⟩
    · push_neg at hc
      obtain ⟨c, h1, h2, h3⟩ := ih hc
      exact ⟨c, Nat.lt_succ_of_lt h1, h2, h3⟩

theorem cell_unique (f : ℕ → ℤ) (mono : ∀ i j, i ≤ j → f i ≤ f j) (x : ℤ)
    {c c' : ℕ} (h1 : f c ≤ x ∧ x < f (c + 1)) (h2 : f c' ≤ x ∧ x < f (c' + 1)) :
    c = c' := by
  by_contra hne
  rcases Nat.lt_or_ge c c' with hlt | hge
  · have hle : f (c + 1) ≤ f c' := mono _ _ hlt
    omega
  · have hlt : c' < c := by omega
    have hle : f (c' + 1) ≤ f c := mono _ _ hlt
    omega

theorem exists_flat_step (f : ℕ → ℤ) (mono : ∀ i j, i ≤ j → f i ≤ f j) (n : ℕ)
    (h : f n - f 0 < n) : ∃ i, i < n ∧ f (i + 1) = f i := by
  induction n with
  | zero => omega
  | succ n ih =>
    by_cases hstep : f (n + 1) = f n
    · exact ⟨n, Nat.lt_succ_self n, hstep⟩
    · have h1 : f n < f (n + 1) :=
        lt_of_le_of_ne (mono n (n + 1) (Nat.le_succ n)) (Ne.symm hstep)
      have h2 : f n - f 0 < n := by omega
      obtain ⟨i, hi, he⟩ := ih h2
      exact ⟨i, Nat.lt_succ_of_lt hi, he⟩

theorem tileRow_length (w h rows cols r : ℕ) :
    (tileRow w h rows cols r).length = cols := by
  unfold tileRow
  rw [List.length_map, List.length_range]

theorem range_flatMap_succ {α : Type} (g : ℕ → List α) (k : ℕ) :
    (List.range (k + 1)).flatMap g = (List.range k).flatMap g ++ g k := by
  rw [List.range_succ, List.flatMap_append]
  simp

theorem tile_rects_prefix_length (w h rows cols : ℕ) (k : ℕ) :
    ((List.range k).flatMap (tileRow w h rows cols)).length = k * cols := by
  induction k with
  | zero => simp
  | succ k ih =>
    rw [range_flatMap_succ, List.length_append, ih, tileRow_length]
    ring

theorem tileRow_getElem? (w h rows cols r c : ℕ) (hc : c < cols) :
    (tileRow w h rows cols r)[c]? = some (tileRect w h rows cols r c) := by
  unfold tileRow
  rw [List.getElem?_map, List.getElem?_range hc]
  rfl

theorem tile_rects_getElem? (w h rows cols r c : ℕ) (hr : r < rows)
    (hc : c < cols) :
    (tile_rects w h rows cols)[r * cols + c]? = some (tileRect w h rows cols r c) := by
  unfold tile_rects
  have main : ∀ k, r < k →
      ((List.range k).flatMap (tileRow w h rows cols))[r * cols + c]?
        = some (tileRect w h rows cols r c) := by
    intro k
    induction k with
    | zero => omega
    | succ k ih =>
      intro hk
      rw [range_flatMap_succ]
      by_cases hrk : r < k
      · have hlen : r * cols + c <
            ((List.range k).flatMap (tileRow w h rows cols)).length := by
          rw [tile_rects_prefix_length]
          have h3 : r + 1 ≤ k := hrk
          calc r * cols + c < r * cols + cols := by omega
            _ = (r + 1) * cols := by ring
            _ ≤ k * cols := Nat.mul_le_mul_right cols h3
        rw [List.getElem?_append_left hlen]
        exact ih hrk
      · have hrk' : r = k := by omega
        subst hrk'
        have hlen : ((List.range r).flatMap (tileRow w h rows cols)).length
            ≤ r * cols + c := by
          rw [tile_rects_prefix_length]
          omega
        rw [List.getElem?_append_right hlen, tile_rects_prefix_length]
        have h4 : r * cols + c - r * cols = c := by omega
        rw [h4]
        exact tileRow_getElem? w h rows cols r c hc
  exact main rows hr

theorem tile_rects_length (w h rows cols : ℕ) :
    (tile_rects w h rows cols).length = rows * cols := by
  unfold tile_rects
  exact tile_rects_prefix_length w h rows cols rows

theorem mem_tile_rects {w h rows cols : ℕ} {t : Rect} :
    t ∈ tile_rects w h rows cols ↔
      ∃ r, r < rows ∧ ∃ c, c < cols ∧ t = tileRect w h rows cols r c := by
  unfold tile_rects tileRow
  simp only [List.mem_flatMap, List.mem_map, List.mem_range]
  constructor
  · rintro ⟨r, hr, c, hc, he⟩
    exact ⟨r, hr, c, hc, he.symm⟩
  · rintro ⟨r, hr, c, hc, he⟩
    exact ⟨r, hr, c, hc, he.symm⟩

theorem crop_whole (im : RasterImage) :
    im.crop { left := 0, upper := 0, right := (im.width : ℤ),
              lower := (im.height : ℤ) } = im := by
  obtain ⟨w, h, p⟩ := im
  unfold RasterImage.crop
  simp only [sub_zero, add_zero, Int.toNat_natCast]

theorem foldl_drawV_width (lw : ℤ) (xs : List ℤ) (im : RasterImage) :
    (xs.foldl (drawVLineOn lw) im).width = im.width := by
  induction xs generalizing im with
  | nil => rfl
  | cons x xs ih => rw [List.foldl_cons, ih]; rfl

theorem foldl_drawV_height (lw : ℤ) (xs : List ℤ) (im : RasterImage) :
    (xs.foldl (drawVLineOn lw) im).height = im.height := by
  induction xs generalizing im with
  | nil => rfl
  | cons x xs ih => rw [List.foldl_cons, ih]; rfl

theorem foldl_drawH_width (lw : ℤ) (ys : List ℤ) (im : RasterImage) :
    (ys.foldl (drawHLineOn lw) im).width = im.width := by
  induction ys generalizing im with
  | nil => rfl
  | cons y ys ih => rw [List.foldl_cons, ih]; rfl

theorem foldl_drawH_height (lw : ℤ) (ys : List ℤ) (im : RasterImage) :
    (ys.foldl (drawHLineOn lw) im).height = im.height := by
  induction ys generalizing im with
  | nil => rfl
  | cons y ys ih => rw [List.foldl_cons, ih]; rfl

theorem composePages_length (tiles : List RasterImage) (pw ph m : ℚ) :
    (composePages tiles pw ph m).length = tiles.length := by
  unfold composePages
  rw [List.length_map]

theorem composePages_getElem? (tiles : List RasterImage) (pw ph m : ℚ)
    (i : ℕ) (t : RasterImage) (h : tiles[i]? = some t) :
    (composePages tiles pw ph m)[i]? =
      some (composeTilePage (printable_w pw m) (printable_h ph m) pw ph t) := by
  unfold composePages
  rw [List.getElem?_map, h]
  rfl

theorem cut_length (im : RasterImage) (rows cols : ℕ) :
    (cut_into_tiles im rows cols).length = rows * cols := by
  unfold cut_into_tiles
  rw [List.length_map, tile_rects_length]

/-- C1: for a raster of width `W ≥ 1`, height `H ≥ 1` and a grid with
`rows ≥ 1`, `cols ≥ 1`, `cut_into_tiles` produces exactly `rows * cols`
tiles in row-major order, tile `(r, c)` being the crop of the pixel
rectangle `[round(c*W/cols), round((c+1)*W/cols)) ×
[round(r*H/rows), round((r+1)*H/rows))`; adjacent tiles share the
identical boundary coordinate, and the rectangles have no gaps and no
overlaps: every pixel of `[0, W) × [0, H)` lies in exactly one cell. -/
theorem c1_partition (im : RasterImage) (rows cols : ℕ)
    (hW : 1 ≤ im.width) (hH : 1 ≤ im.height) (hr : 1 ≤ rows) (hc : 1 ≤ cols) :
    (cut_into_tiles im rows cols).length = rows * cols ∧
    (∀ r c, r < rows → c < cols →
      (tile_rects im.width im.height rows cols)[r * cols + c]? =
        some (tileRect im.width im.height rows cols r c) ∧
      (cut_into_tiles im rows cols)[r * cols + c]? =
        some (im.crop (tileRect im.width im.height rows cols r c))) ∧
    (∀ r c,
      (tileRect im.width im.height rows cols r c).right =
        (tileRect im.width im.height rows cols r (c + 1)).left ∧
      (tileRect im.width im.height rows cols r c).lower =
        (tileRect im.width im.height rows cols (r + 1) c).upper) ∧
    (∀ x y : ℤ, 0 ≤ x → x < (im.width : ℤ) → 0 ≤ y → y < (im.height : ℤ) →
      ∃! rc : ℕ × ℕ, rc.1 < rows ∧ rc.2 < cols ∧
        inRect (tileRect im.width im.height rows cols rc.1 rc.2) x y) := by
  refine ⟨cut_length im rows cols, ?_, fun r c => ⟨rfl, rfl⟩, ?_⟩
  · intro r c hrr hcc
    refine ⟨tile_rects_getElem? _ _ _ _ _ _ hrr hcc, ?_⟩
    unfold cut_into_tiles
    rw [List.getElem?_map, tile_rects_getElem? _ _ _ _ _ _ hrr hcc]
    rfl
  · intro x y hx0 hxW hy0 hyH
    have monox : ∀ i j, i ≤ j →
        tileBound im.width cols i ≤ tileBound im.width cols j :=
      fun i j hij => tileBound_mono _ _ hij
    have monoy : ∀ i j, i ≤ j →
        tileBound im.height rows i ≤ tileBound im.height rows j :=
      fun i j hij => tileBound_mono _ _ hij
    have h0x : tileBound im.width cols 0 ≤ x := by
      rw [tileBound_zero]; exact hx0
    have hnx : x < tileBound im.width cols cols := by
      rw [tileBound_self _ _ (by omega)]; exact hxW
    have h0y : tileBound im.height rows 0 ≤ y := by
      rw [tileBound_zero]; exact hy0
    have hny : y < tileBound im.height rows rows := by
      rw [tileBound_self _ _ (by omega)]; exact hyH
    obtain ⟨c, hcn, hcl, hcr⟩ := exists_cell _ monox cols x h0x hnx
    obtain ⟨r, hrn, hrl, hrr⟩ := exists_cell _ monoy rows y h0y hny
    refine ⟨⟨r, c⟩, ⟨hrn, hcn, ⟨hcl, hcr, hrl, hrr⟩⟩, ?_⟩
    rintro ⟨r', c'⟩ ⟨hr', hc', l1, l2, l3, l4⟩
    have ec : c' = c := cell_unique _ monox x ⟨l1, l2⟩ ⟨hcl, hcr⟩
    have er : r' = r := cell_unique _ monoy y ⟨l3, l4⟩ ⟨hrl, hrr⟩
    simp [ec, er]

/-- Witness for C1: the spec scenario, a 2 × 3 grid on a 1000 × 700 raster:
6 tiles, tile (0,0) = [0,333) × [0,350), tile (0,1) = [333,667) × [0,350). -/
theorem c1_witness :
    (cut_into_tiles sampleImage 2 3).length = 2 * 3 ∧
    (tile_rects 1000 700 2 3)[0 * 3 + 1]? = some (tileRect 1000 700 2 3 0 1) ∧
    tileRect 1000 700 2 3 0 0 = { left := 0, upper := 0, right := 333, lower := 350 } ∧
    tileRect 1000 700 2 3 0 1 = { left := 333, upper := 0, right := 667, lower := 350 } := by
  have h := c1_partition sampleImage 2 3 (by decide) (by decide) (by decide) (by decide)
  refine ⟨h.1, (h.2.1 0 1 (by decide) (by decide)).1, ?_, ?_⟩ <;>
    (unfold tileRect tileBound pyRound;
     rw [rat_floor_eq, rat_floor_eq, rat_floor_eq, rat_floor_eq];
     norm_num)

/-- C2 names a code bug. The overlay computes `round(c * w / cols)`
(src/main.py line 92) while the partitioner computes `round(c * tile_w)`
with `tile_w = w / cols` already rounded to a binary64 double
(src/main.py lines 103 and 108); in exact arithmetic the two expressions
agree, but in the program's doubles they differ at reachable inputs, so the
claimed (and spec-intended, §4.4) line/cut coordinate equality fails.  At
`W = 1005`, `cols = 14`, boundary `c = 7`: the overlay's `7 * 1005 / 14` is
the exactly representable `502.5`, and banker's rounding puts the preview
line at `x = 502`; the partitioner's `tile_w` is the double `tile_w_f64`
(within half an ulp, `2^-47`, of `1005/14`), `7 * tile_w` is the double
`c_tile_w_f64 = 502.5 + 2^-44` (within half an ulp, `2^-45`, of the exact
product), and the cut lands at `503`.  The last conjunct shows the
exact-rational boundary `tileBound` collapses to the overlay's value `502`
at this input, which is why the idealized model cannot exhibit the
mismatch. -/
theorem c2_preview_cut_mismatch :
    gridVLineX 1005 14 7 = 502 ∧
    pyRound c_tile_w_f64 = 503 ∧
    gridVLineX 1005 14 7 ≠ pyRound c_tile_w_f64 ∧
    |tile_w_f64 - 1005 / 14| ≤ 1 / 2 ^ 47 ∧
    |c_tile_w_f64 - 7 * tile_w_f64| ≤ 1 / 2 ^ 45 ∧
    tileBound 1005 14 7 = 502 := by
  have h1 : gridVLineX 1005 14 7 = 502 := by with_unfolding_all decide
  have h2 : pyRound c_tile_w_f64 = 503 := by with_unfolding_all decide
  refine ⟨h1, h2, ?_, ?_, ?_, ?_⟩
  · rw [h1, h2]
    decide
  · unfold tile_w_f64
    rw [abs_le]
    constructor <;> norm_num
  · unfold tile_w_f64 c_tile_w_f64
    rw [abs_le]
    constructor <;> norm_num
  · with_unfolding_all decide

/-- C3: for a non-empty tile sequence with positive tile dimensions and any
target paper `(pw, ph)` and margin, the export loop emits exactly one page
per tile, in the same order; every page has dimensions `(pw, ph)`; the tile
of size `(tw, th)` is drawn at `(tw*s, th*s)` with
`s = min(printableW/tw, printableH/th)` and placed at `x = (pw - drawW)/2`,
`y = (ph - drawH)/2`; for a partitioned image the page count is
`rows * cols`. -/
theorem c3_composer (tiles : List RasterImage) (pw ph m : ℚ)
    (hne : tiles ≠ []) (hpos : ∀ t ∈ tiles, 0 < t.width ∧ 0 < t.height) :
    (composePages tiles pw ph m).length = tiles.length ∧
    (∀ (i : ℕ) (t : RasterImage), tiles[i]? = some t →
      (composePages tiles pw ph m)[i]? = some
        ({ pageW := pw, pageH := ph
           drawW := (t.width : ℚ) *
             min (printable_w pw m / (t.width : ℚ)) (printable_h ph m / (t.height : ℚ))
           drawH := (t.height : ℚ) *
             min (printable_w pw m / (t.width : ℚ)) (printable_h ph m / (t.height : ℚ))
           x := (pw - (t.width : ℚ) *
             min (printable_w pw m / (t.width : ℚ)) (printable_h ph m / (t.height : ℚ))) / 2
           y := (ph - (t.height : ℚ) *
             min (printable_w pw m / (t.width : ℚ)) (printable_h ph m / (t.height : ℚ))) / 2 } : OutputPage)) ∧
    (∀ p ∈ composePages tiles pw ph m, p.pageW = pw ∧ p.pageH = ph) ∧
    (∀ (im : RasterImage) (rows cols : ℕ),
      (composePages (cut_into_tiles im rows cols) pw ph m).length = rows * cols) := by
  refine ⟨composePages_length tiles pw ph m, ?_, ?_, ?_⟩
  · intro i t ht
    rw [composePages_getElem? tiles pw ph m i t ht]
    rfl
  · intro p hp
    unfold composePages at hp
    obtain ⟨t, _, he⟩ := List.mem_map.1 hp
    rw [← he]
    exact ⟨rfl, rfl⟩
  · intro im rows cols
    rw [composePages_length, cut_length]

/-- Witness for C3: a single 100 × 50 tile on 595 × 842 paper with a
14-point margin gives one page of that paper size with the tile scaled by
`s = min(567/100, 814/50) = 567/100` and centered. -/
theorem c3_witness :
    (composePages [sampleTile] 595 842 14).length = 1 ∧
    (composePages [sampleTile] 595 842 14)[0]? = some
      { pageW := 595, pageH := 842, drawW := 567, drawH := 567 / 2,
        x := 14, y := 1117 / 4 } := by
  have h := c3_composer [sampleTile] 595 842 14 (List.cons_ne_nil _ _)
    (by intro t ht; rw [List.mem_singleton] at ht; subst ht
        exact ⟨by norm_num [sampleTile], by norm_num [sampleTile]⟩)
  refine ⟨h.1, ?_⟩
  rw [h.2.1 0 sampleTile rfl]
  have hw : (sampleTile.width : ℚ) = 100 := by norm_num [sampleTile]
  have hh : (sampleTile.height : ℚ) = 50 := by norm_num [sampleTile]
  rw [hw, hh]
  unfold printable_w printable_h
  norm_num [min_def]

/-- Counterexample to C4: the custom-like string `"custom100,150"` lacks its
colon, so it fails the `startswith("custom:")` test and `parse_paper`
raises `UnsupportedPaperSize` — not `InvalidPaperFormat` as claimed. -/
theorem c4_counterexample :
    parse_paper "custom100,150" = .error .UnsupportedPaperSize ∧
    parse_paper "custom100,150" ≠ .error .InvalidPaperFormat := by
  constructor
  · rfl
  · intro he
    have : PaperError.UnsupportedPaperSize = PaperError.InvalidPaperFormat := by
      have h1 : parse_paper "custom100,150" = .error .UnsupportedPaperSize := rfl
      rw [h1] at he
      exact Except.error.inj he
    exact PaperError.noConfusion this

/-- C4 amended: `parse_paper` fails with `UnsupportedPaperSize` on every
string whose stripped form is neither a preset nor prefixed
(case-insensitively) by `"custom:"` — in particular on every custom-like
string lacking its colon; a string that does carry the `custom:` prefix
never gets `UnsupportedPaperSize`: it either parses or fails with
`InvalidPaperFormat`, which is the error for non-numeric fields and wrong
field counts after the prefix. -/
theorem c4_amended :
    (∀ s : String,
      List.lookup (pyStrip (if s = "" then "A4" else s)) PAPER_PRESETS_MM = none →
      strStartsWith (pyLower (pyStrip (if s = "" then "A4" else s))) "custom:" = false →
      parse_paper s = .error .UnsupportedPaperSize) ∧
    (∀ s : String,
      List.lookup (pyStrip (if s = "" then "A4" else s)) PAPER_PRESETS_MM = none →
      strStartsWith (pyLower (pyStrip (if s = "" then "A4" else s))) "custom:" = true →
      parse_paper s ≠ .error .UnsupportedPaperSize) ∧
    parse_paper "custom:abc,10" = .error .InvalidPaperFormat ∧
    parse_paper "custom:1,2,3" = .error .InvalidPaperFormat ∧
    parse_paper "custom:10" = .error .InvalidPaperFormat := by
  refine ⟨?_, ?_, rfl, rfl, rfl⟩
  · intro s h1 h2
    simp only [parse_paper]
    rw [h1, h2]
    rfl
  · intro s h1 h2
    simp only [parse_paper]
    rw [h1, h2]
    rw [if_pos rfl]
    dsimp only
    split
    · simp
    · split
      · split <;> simp
      · simp

/-- Witness for the amended C4: `"B5"` is neither a preset nor
custom-prefixed and fails with `UnsupportedPaperSize`. -/
theorem c4_witness : parse_paper "B5" = .error .UnsupportedPaperSize :=
  c4_amended.1 "B5" rfl rfl

/-- C5: for positive first-page point dimensions and any pixel budget, the
rasterizer's scale equals `sqrt(max(1.0, maxPixels) / (w_pt * h_pt))`
clamped to the closed interval `[0.25, 6.0]`; when the budget is far below
the page's point area (at or under `w*h/16`) the scale is exactly `0.25`,
and when it is far above (at or over `36*w*h`) the scale is exactly `6.0`. -/
theorem c5_render_scale (w_pt h_pt m : ℝ) (hw : 0 < w_pt) (hh : 0 < h_pt) :
    renderScale w_pt h_pt m
      = max 0.25 (min (Real.sqrt (max 1.0 m / (w_pt * h_pt))) 6.0) ∧
    0.25 ≤ renderScale w_pt h_pt m ∧
    renderScale w_pt h_pt m ≤ 6.0 ∧
    (max 1.0 m ≤ w_pt * h_pt / 16 → renderScale w_pt h_pt m = 0.25) ∧
    (36 * (w_pt * h_pt) ≤ m → renderScale w_pt h_pt m = 6.0) := by
  have hwh : 0 < w_pt * h_pt := mul_pos hw hh
  refine ⟨rfl, le_max_left _ _, ?_, ?_, ?_⟩
  · unfold renderScale
    exact max_le (by norm_num) (min_le_right _ _)
  · intro hbelow
    unfold renderScale
    have harg : max 1.0 m / (w_pt * h_pt) ≤ 1/16 := by
      rw [div_le_iff₀ hwh]
      calc max 1.0 m ≤ w_pt * h_pt / 16 := hbelow
        _ = 1/16 * (w_pt * h_pt) := by ring
    have hsq : Real.sqrt (max 1.0 m / (w_pt * h_pt)) ≤ 0.25 := by
      have hs1 : Real.sqrt (max 1.0 m / (w_pt * h_pt)) ≤ Real.sqrt (1/16) :=
        Real.sqrt_le_sqrt harg
      have hs2 : Real.sqrt (1/16) = 0.25 := by
        rw [show (1/16 : ℝ) = 0.25 ^ 2 by norm_num]
        exact Real.sqrt_sq (by norm_num)
      linarith
    rw [min_eq_left (le_trans hsq (by norm_num)), max_eq_left hsq]
  · intro habove
    unfold renderScale
    have harg : 36 ≤ max 1.0 m / (w_pt * h_pt) := by
      rw [le_div_iff₀ hwh]
      calc (36 : ℝ) * (w_pt * h_pt) ≤ m := habove
        _ ≤ max 1.0 m := le_max_right _ _
    have hsq : 6.0 ≤ Real.sqrt (max 1.0 m / (w_pt * h_pt)) := by
      have hs2 : Real.sqrt 36 = 6 := by
        rw [show (36 : ℝ) = 6 ^ 2 by norm_num]
        exact Real.sqrt_sq (by norm_num)
      have hs1 : Real.sqrt 36 ≤ Real.sqrt (max 1.0 m / (w_pt * h_pt)) :=
        Real.sqrt_le_sqrt harg
      linarith
    rw [min_eq_right hsq, max_eq_right (by norm_num)]

/-- Witness for C5: a 4 × 4 point page with a budget of 1 pixel floors the
scale at 0.25, and with a budget of 1000 pixels ceils it at 6.0. -/
theorem c5_witness :
    renderScale 4 4 1 = 0.25 ∧ renderScale 4 4 1000 = 6.0 := by
  constructor
  · exact (c5_render_scale 4 4 1 (by norm_num) (by norm_num)).2.2.2.1
      (by rw [show max (1.0 : ℝ) 1 = 1 by norm_num]; norm_num)
  · exact (c5_render_scale 4 4 1000 (by norm_num) (by norm_num)).2.2.2.2 (by norm_num)

/-- C6: the export clamps the margin to ≥ 0 first (line 165), then floors
each printable dimension at 1 point (lines 166-167): for every positive
paper size and every margin — including margins at or above half of either
paper dimension — the printable area is at least 1 point in each axis. -/
theorem c6_printable (pw ph margin_mm : ℚ) (hpw : 0 < pw) (hph : 0 < ph) :
    0 ≤ margin_pt margin_mm ∧
    printable_w pw (margin_pt margin_mm) = max 1 (pw - 2 * margin_pt margin_mm) ∧
    printable_h ph (margin_pt margin_mm) = max 1 (ph - 2 * margin_pt margin_mm) ∧
    1 ≤ printable_w pw (margin_pt margin_mm) ∧
    1 ≤ printable_h ph (margin_pt margin_mm) := by
  refine ⟨?_, rfl, rfl, le_max_left _ _, le_max_left _ _⟩
  unfold margin_pt
  apply mul_nonneg (le_max_left 0 margin_mm)
  norm_num [PT_PER_MM, PT_PER_INCH, MM_PER_INCH]

/-- Witness for C6: a 10000 mm margin on 595 × 842 pt paper (far above half
of either dimension) still leaves a printable area of at least 1 × 1 pt. -/
theorem c6_witness :
    0 ≤ margin_pt 10000 ∧
    1 ≤ printable_w 595 (margin_pt 10000) ∧
    1 ≤ printable_h 842 (margin_pt 10000) := by
  have h := c6_printable 595 842 10000 (by norm_num) (by norm_num)
  exact ⟨h.1, h.2.2.2.1, h.2.2.2.2⟩

/-- Counterexample to C7: `parse_paper` accepts `"custom:-10,20"` without any
positivity validation, constructing a paper size whose width
`-10 mm = -3600/127 pt` is negative — the claimed invariant `width > 0` does
not hold for every accepted custom string. -/
theorem c7_counterexample :
    parse_paper "custom:-10,20" = .ok (-10 * PT_PER_MM, 20 * PT_PER_MM) ∧
    (-10 : ℚ) * PT_PER_MM < 0 := by
  constructor
  · with_unfolding_all rfl
  · norm_num [PT_PER_MM, PT_PER_INCH, MM_PER_INCH]

/-- C7 amended: every PhysicalSize resolved from a named preset has positive
width and height (in mm and in points), but `parse_paper` does not validate
custom sizes: there is an accepted custom string whose parsed width is
negative. -/
theorem c7_amended :
    (∀ nm wmm hmm, (nm, wmm, hmm) ∈ PAPER_PRESETS_MM →
      0 < wmm ∧ 0 < hmm ∧ 0 < wmm * PT_PER_MM ∧ 0 < hmm * PT_PER_MM) ∧
    (∃ s wpt hpt, parse_paper s = .ok (wpt, hpt) ∧ wpt < 0) := by
  constructor
  · intro nm wmm hmm hmem
    fin_cases hmem <;>
      refine ⟨by norm_num, by norm_num, ?_, ?_⟩ <;>
        norm_num [PT_PER_MM, PT_PER_INCH, MM_PER_INCH]
  · exact ⟨"custom:-10,20", -10 * PT_PER_MM, 20 * PT_PER_MM,
      by with_unfolding_all rfl,
      by norm_num [PT_PER_MM, PT_PER_INCH, MM_PER_INCH]⟩

/-- Witness for the amended C7: the A4 preset resolves to a positive width
in points. -/
theorem c7_witness : 0 < (210.0 : ℚ) * PT_PER_MM :=
  (c7_amended.1 "A4" 210.0 297.0 (List.mem_cons_self _ _)).2.2.1

/-- C8: with `rows = 1` and `cols = 1` the partition is one tile whose crop
box is the whole image `[0, W) × [0, H)` and whose content equals the source
image; exporting it yields exactly one page, with the tile centered. -/
theorem c8_degenerate (im : RasterImage) (pw ph m : ℚ) :
    tile_rects im.width im.height 1 1 =
      [{ left := 0, upper := 0, right := (im.width : ℤ), lower := (im.height : ℤ) }] ∧
    cut_into_tiles im 1 1 = [im] ∧
    (composePages (cut_into_tiles im 1 1) pw ph m).length = 1 ∧
    (∀ p ∈ composePages (cut_into_tiles im 1 1) pw ph m,
      p.pageW = pw ∧ p.pageH = ph ∧
      p.x = (pw - p.drawW) / 2 ∧ p.y = (ph - p.drawH) / 2) := by
  have h00 : tileRect im.width im.height 1 1 0 0 =
      { left := 0, upper := 0, right := (im.width : ℤ), lower := (im.height : ℤ) } := by
    unfold tileRect
    rw [tileBound_zero, tileBound_zero,
        tileBound_self im.width 1 one_ne_zero, tileBound_self im.height 1 one_ne_zero]
  have hrect : tile_rects im.width im.height 1 1 =
      [{ left := 0, upper := 0, right := (im.width : ℤ), lower := (im.height : ℤ) }] := by
    unfold tile_rects tileRow
    rw [show List.range 1 = [0] from rfl]
    simp only [List.flatMap_cons, List.flatMap_nil, List.map_cons, List.map_nil,
      List.append_nil]
    rw [h00]
  have hcut : cut_into_tiles im 1 1 = [im] := by
    unfold cut_into_tiles
    rw [hrect]
    simp only [List.map_cons, List.map_nil]
    rw [crop_whole]
  refine ⟨hrect, hcut, ?_, ?_⟩
  · rw [composePages_length, hcut]
    rfl
  · intro p hp
    unfold composePages at hp
    obtain ⟨t, _, he⟩ := List.mem_map.1 hp
    rw [← he]
    exact ⟨rfl, rfl, rfl, rfl⟩

/-- Witness for C8: the 1000 × 700 sample at 1 × 1 gives back the whole
image as the only tile and a single centered page. -/
theorem c8_witness :
    cut_into_tiles sampleImage 1 1 = [sampleImage] ∧
    (composePages (cut_into_tiles sampleImage 1 1) 595 842 14).length = 1 ∧
    ∃ p ∈ composePages (cut_into_tiles sampleImage 1 1) 595 842 14,
      p.x = (595 - p.drawW) / 2 ∧ p.y = (842 - p.drawH) / 2 := by
  have h := c8_degenerate sampleImage 595 842 14
  refine ⟨h.2.1, h.2.2.1, ?_⟩
  have hne : composePages (cut_into_tiles sampleImage 1 1) 595 842 14 ≠ [] := by
    intro he
    have hlen := h.2.2.1
    rw [he] at hlen
    simp at hlen
  obtain ⟨p, hp⟩ := List.exists_mem_of_ne_nil _ hne
  exact ⟨p, hp, (h.2.2.2 p hp).2.2.1, (h.2.2.2 p hp).2.2.2⟩

/-- C9: the composer's per-tile scale divides by the tile's width and height
with no zero guard.  When `cols ≤ W` and `rows ≤ H` every produced tile has
width ≥ 1 and height ≥ 1 so both divisions are well-defined; when `cols > W`
(resp. `rows > H`) some produced tile has pixel width 0 (resp. height 0),
and the export loop still feeds it to the division — its divisor
(the cropped tile's width) is exactly 0 and no specified error kind is
surfaced: the composer is total and still emits `rows * cols` pages. -/
theorem c9_zero_division (w h rows cols : ℕ) (hr : 1 ≤ rows) (hc : 1 ≤ cols)
    (hw : 1 ≤ w) (hh : 1 ≤ h) :
    (cols ≤ w → ∀ t ∈ tile_rects w h rows cols, 1 ≤ t.width) ∧
    (rows ≤ h → ∀ t ∈ tile_rects w h rows cols, 1 ≤ t.height) ∧
    (w < cols → ∃ t ∈ tile_rects w h rows cols, t.width = 0) ∧
    (h < rows → ∃ t ∈ tile_rects w h rows cols, t.height = 0) ∧
    (∀ (im : RasterImage) (pw ph m : ℚ),
      (composePages (cut_into_tiles im rows cols) pw ph m).length = rows * cols) ∧
    (∀ im : RasterImage, im.width = w → im.height = h → w < cols →
      ∃ tl ∈ cut_into_tiles im rows cols, (tl.width : ℚ) = 0) := by
  refine ⟨?_, ?_, ?_, ?_, ?_, ?_⟩
  · intro hcw t ht
    obtain ⟨r, hrr, c, hcc, rfl⟩ := mem_tile_rects.1 ht
    have hstep := tileBound_step w cols c hc hcw
    simp only [Rect.width, tileRect]
    omega
  · intro hrh t ht
    obtain ⟨r, hrr, c, hcc, rfl⟩ := mem_tile_rects.1 ht
    have hstep := tileBound_step h rows r hr hrh
    simp only [Rect.height, tileRect]
    omega
  · intro hwc
    have mono : ∀ i j, i ≤ j → tileBound w cols i ≤ tileBound w cols j :=
      fun i j hij => tileBound_mono _ _ hij
    have hfs : tileBound w cols cols - tileBound w cols 0 < (cols : ℤ) := by
      rw [tileBound_self _ _ (by omega), tileBound_zero]
      have : (w : ℤ) < (cols : ℤ) := by exact_mod_cast hwc
      omega
    obtain ⟨i, hi, he⟩ := exists_flat_step _ mono cols hfs
    refine ⟨tileRect w h rows cols 0 i, mem_tile_rects.2 ⟨0, by omega, i, hi, rfl⟩, ?_⟩
    simp only [Rect.width, tileRect]
    omega
  · intro hhr
    have mono : ∀ i j, i ≤ j → tileBound h rows i ≤ tileBound h rows j :=
      fun i j hij => tileBound_mono _ _ hij
    have hfs : tileBound h rows rows - tileBound h rows 0 < (rows : ℤ) := by
      rw [tileBound_self _ _ (by omega), tileBound_zero]
      have : (h : ℤ) < (rows : ℤ) := by exact_mod_cast hhr
      omega
    obtain ⟨i, hi, he⟩ := exists_flat_step _ mono rows hfs
    refine ⟨tileRect w h rows cols i 0, mem_tile_rects.2 ⟨i, hi, 0, by omega, rfl⟩, ?_⟩
    simp only [Rect.height, tileRect]
    omega
  · intro im pw ph m
    rw [composePages_length, cut_length]
  · intro im hiw hih hwc
    subst hiw
    subst hih
    have mono : ∀ i j, i ≤ j → tileBound im.width cols i ≤ tileBound im.width cols j :=
      fun i j hij => tileBound_mono _ _ hij
    have hfs : tileBound im.width cols cols - tileBound im.width cols 0 < (cols : ℤ) := by
      rw [tileBound_self _ _ (by omega), tileBound_zero]
      have : (im.width : ℤ) < (cols : ℤ) := by exact_mod_cast hwc
      omega
    obtain ⟨i, hi, he⟩ := exists_flat_step _ mono cols hfs
    refine ⟨im.crop (tileRect im.width im.height rows cols 0 i), ?_, ?_⟩
    · unfold cut_into_tiles
      exact List.mem_map_of_mem _ (mem_tile_rects.2 ⟨0, by omega, i, hi, rfl⟩)
    · unfold RasterImage.crop
      simp only [tileRect]
      rw [he]
      simp

/-- Witness for C9: on a 2-pixel-wide, 2-pixel-high raster a 1 × 3 grid
produces a zero-width tile, while on a 4 × 4 raster a 2 × 2 grid keeps all
tile widths at least 1. -/
theorem c9_witness :
    (∃ t ∈ tile_rects 2 2 1 3, t.width = 0) ∧
    (∀ t ∈ tile_rects 4 4 2 2, 1 ≤ t.width) := by
  constructor
  · exact (c9_zero_division 2 2 1 3 (by norm_num) (by norm_num) (by norm_num)
      (by norm_num)).2.2.1 (by norm_num)
  · exact (c9_zero_division 4 4 2 2 (by norm_num) (by norm_num) (by norm_num)
      (by norm_num)).1 (by norm_num)

/-- C10: `parse_paper` defaults to A4 only for the exactly-empty identifier:
the emptiness test precedes stripping, so a whitespace-only identifier is
stripped to an unrecognized empty string and fails with
`UnsupportedPaperSize` instead of resolving to A4. -/
theorem c10_default_paper :
    parse_paper "" = .ok (210.0 * PT_PER_MM, 297.0 * PT_PER_MM) ∧
    parse_paper " " = .error .UnsupportedPaperSize ∧
    (∀ s : String, s ≠ "" → pyStrip s = "" →
      parse_paper s = .error .UnsupportedPaperSize) := by
  refine ⟨rfl, rfl, ?_⟩
  intro s h1 h2
  simp only [parse_paper]
  rw [if_neg h1, h2]
  rfl

/-- Witness for C10: the one-space identifier is nonempty, strips to the
empty string, and is rejected as an unsupported paper size. -/
theorem c10_witness : parse_paper " " = .error .UnsupportedPaperSize :=
  c10_default_paper.2.2 " " (by decide) rfl
